import Mathlib

/-
  Verification development for the PerfLite stack-trace parsing engine.

  The definitions below are a shallow embedding of the Rust sources:
    - src/rust/src/simd.rs  : SimdParser.simd_extract_numbers,
                              SimdParser.simd_extract_line_column
    - src/rust/src/parser.rs: ErrorParser.new, ErrorParser.parse,
                              ErrorParser.parse_simd
  Byte buffers are modelled as List Nat (byte values), text as List Char,
  u32 values as Nat together with the explicit 2 ^ 32 bound where the source
  can overflow.  Loops are modelled as structurally recursive functions on an
  explicit fuel argument; every call site passes fuel that dominates the
  number of iterations the source loop can perform, so the model computes
  exactly what the loops compute.
-/

/-- ASCII digit test on a byte: the source compares a byte with the ASCII
codes of the characters 0 and 9 (48 and 57). -/
def isDigitB (b : Nat) : Bool := 48 ≤ b && b ≤ 57

/-- End index of the digit run starting at j: models the source loop
while j < len and byte j is a digit, j increments (simd.rs lines 119-121
and 141-143).  Fuel dominates len - j at every call site. -/
def runEnd (bs : List Nat) : Nat → Nat → Nat
  | 0, j => j
  | fuel + 1, j =>
    if j < bs.length then
      if isDigitB (bs.getD j 0) then runEnd bs fuel (j + 1) else j
    else j

/-- Decimal value of the digit bytes bs[start..stop), the value that
str.parse on that slice would produce when it succeeds. -/
def sliceVal (bs : List Nat) (start stop : Nat) : Nat :=
  ((bs.drop start).take (stop - start)).foldl (fun a b => a * 10 + (b - 48)) 0

/-- Push the parsed run bs[start..stop) onto the accumulator: u32 parse of a
nonempty all-digit slice succeeds exactly when its value fits in a u32, and
a failed parse (overflow) is skipped (simd.rs lines 124-127, 146-149). -/
def pushRun (bs : List Nat) (start stop : Nat) (acc : List Nat) : List Nat :=
  if sliceVal bs start stop < 2 ^ 32 then acc ++ [sliceVal bs start stop] else acc

/-- The 16-lane digit classification of the chunk loaded at i, reduced to the
test the source makes of it: i8x16_bitmask of the lanewise range comparison
is nonzero iff some byte of bs[i..i+16) is a digit (simd.rs lines 105-113). -/
def chunkHasDigit (bs : List Nat) (i : Nat) : Bool :=
  ((List.range 16).map fun k => bs.getD (i + k) 0).any isDigitB

/-- Inner walk of one classified chunk (simd.rs lines 115-131):
j starts at the chunk base, runs while j < i + 16 and j < len; on a digit the
run is scanned to its end - the source bound is j < len, NOT the chunk end,
so the scan can continue past the chunk - the run is parsed and pushed, and
j resumes one past the run end.  hi is the chunk end i + 16.  Each iteration
increases j, so fuel 17 dominates the iteration count. -/
def chunkScan (bs : List Nat) (hi : Nat) : Nat → Nat → List Nat → List Nat
  | 0, _, acc => acc
  | fuel + 1, j, acc =>
    if j < hi ∧ j < bs.length then
      if isDigitB (bs.getD j 0) then
        chunkScan bs hi fuel (runEnd bs (bs.length + 1) j + 1)
          (pushRun bs j (runEnd bs (bs.length + 1) j) acc)
      else chunkScan bs hi fuel (j + 1) acc
    else acc

/-- The batch loop over full 16-byte chunks (simd.rs lines 104-135):
while i + 16 <= len, classify the chunk, walk it if it holds a digit, then
i += 16.  Returns the final i together with the accumulator, as the source
leaves i for the tail loop.  Fuel len + 1 dominates the chunk count. -/
def batchLoop (bs : List Nat) : Nat → Nat → List Nat → Nat × List Nat
  | 0, i, acc => (i, acc)
  | fuel + 1, i, acc =>
    if i + 16 ≤ bs.length then
      batchLoop bs fuel (i + 16)
        (if chunkHasDigit bs i then chunkScan bs (i + 16) 17 i acc else acc)
    else (i, acc)

/-- The scalar loop (simd.rs lines 138-153): byte-at-a-time digit
classification from position i to the end of the buffer; each maximal digit
run is parsed and pushed, overflow runs are skipped. -/
def tailLoop (bs : List Nat) : Nat → Nat → List Nat → List Nat
  | 0, _, acc => acc
  | fuel + 1, i, acc =>
    if i < bs.length then
      if isDigitB (bs.getD i 0) then
        tailLoop bs fuel (runEnd bs (bs.length + 1) i + 1)
          (pushRun bs i (runEnd bs (bs.length + 1) i) acc)
      else tailLoop bs fuel (i + 1) acc
    else acc

/-- SimdParser.simd_extract_numbers, batch (simd128) strategy
(simd.rs lines 92-155): the batch loop over the full chunks followed by the
scalar loop over the remaining tail. -/
def simdExtractNumbers (bs : List Nat) : List Nat :=
  tailLoop bs (bs.length + 1) (batchLoop bs (bs.length + 1) 0 []).1
    (batchLoop bs (bs.length + 1) 0 []).2

/-- The pure scalar strategy: byte-at-a-time digit classification over the
whole buffer.  This is simd.rs lines 138-153 started at position 0, and it is
also what the non-simd128 fallback (simd.rs lines 157-165, split on
non-digit characters, drop empty pieces, parse each piece) computes. -/
def scalarExtractNumbers (bs : List Nat) : List Nat :=
  tailLoop bs (bs.length + 1) 0 []

/-- SimdParser.simd_extract_line_column, simd128 branch
(simd.rs lines 169-185): take the numbers found by simd_extract_numbers and,
when there are at least two, push numbers[i] and numbers[i+1] for every i in
0..len-1; otherwise the result stays empty. -/
def simdExtractLineColumn (bs : List Nat) : List Nat :=
  if 2 ≤ (simdExtractNumbers bs).length then
    (List.range ((simdExtractNumbers bs).length - 1)).flatMap fun i =>
      [(simdExtractNumbers bs).getD i 0, (simdExtractNumbers bs).getD (i + 1) 0]
  else []

/-- Byte list of an ASCII string (str.as_bytes in the source). -/
def strBytes (s : String) : List Nat := s.data.map Char.toNat

/-
  Embedding of src/rust/src/parser.rs.  The three compiled patterns of
  ErrorParser.new are hand-translated into deterministic capture functions
  with the leftmost-first semantics of the regex engine used by the source:

    chrome_regex : at then one or more whitespace, optional group 1 of one
      or more characters that are neither whitespace nor an opening
      parenthesis, optional whitespace, optional group 2 of a parenthesized
      group 3 of one or more non-closing-parenthesis characters.
    firefox_regex: group 1 of zero or more non-at-sign characters, an
      at-sign, greedy group 2 of one or more any-but-newline characters, a
      colon, group 3 of one or more digits, a colon, group 4 of one or more
      digits.
    safari_regex : like firefox_regex but group 2 is one or more
      non-colon characters.

  The character classes are modelled at their ASCII meaning, which is their
  meaning on every byte the repository's formats produce.
-/

/-- Whitespace class of the patterns, on ASCII characters. -/
def isWs (c : Char) : Bool :=
  c = ' ' || c = '\t' || c = '\n' || c = '\r' || c = '\x0b' || c = '\x0c'

/-- Digit class of the patterns, on ASCII characters. -/
def isDigitC (c : Char) : Bool := 48 ≤ c.toNat && c.toNat ≤ 57

/-- Value of a pure-digit piece: u32 parse succeeds on one or more ASCII
digits exactly when the decimal value fits in a u32. -/
def parseU32digits (ds : List Char) : Option Nat :=
  if ds ≠ [] ∧ ds.all isDigitC then
    if ds.foldl (fun a c => a * 10 + (c.toNat - 48)) 0 < 2 ^ 32 then
      some (ds.foldl (fun a c => a * 10 + (c.toNat - 48)) 0)
    else none
  else none

/-- Rust str.parse for u32 on a piece of captured text: an optional leading
plus sign, then one or more ASCII digits whose value fits in a u32;
anything else is a parse error. -/
def parseU32 (l : List Char) : Option Nat :=
  parseU32digits (match l with | '+' :: r => r | _ => l)

/-- Rust str.split on a separator character: the pieces between separator
occurrences, keeping empty pieces, one piece for the empty string. -/
def splitOnChar (sep : Char) : List Char → List (List Char)
  | [] => [[]]
  | c :: rest =>
    if c = sep then [] :: splitOnChar sep rest
    else
      match splitOnChar sep rest with
      | [] => [[c]]
      | h :: t => (c :: h) :: t

/-- Vec.join on a separator character, as used for the file-path pieces. -/
def joinSep (sep : Char) : List (List Char) → List Char
  | [] => []
  | [x] => x
  | x :: y :: t => x ++ sep :: joinSep sep (y :: t)

/-- The output record of parser.rs (struct StackFrame, lines 9-14). -/
structure StackFrame where
  function_name : List Char
  file_name : List Char
  line_number : Nat
  column_number : Nat
deriving DecidableEq, Repr

/-- The anonymous-name sentinel of parser.rs. -/
def anonName : List Char := "<anonymous>".data

/-- Leftmost occurrence of the letter a, the letter t, then a whitespace
character: the earliest position at which chrome_regex can match, hence the
position at which leftmost-first matching anchors it, since everything after
at and the mandatory whitespace is optional.  Returns the suffix starting at
the whitespace character. -/
def chromeSearch : List Char → Option (List Char)
  | c1 :: c2 :: c3 :: rest =>
    if c1 = 'a' ∧ c2 = 't' ∧ isWs c3 then some (c3 :: rest)
    else chromeSearch (c2 :: c3 :: rest)
  | _ => none

/-- Group 3 of chrome_regex, read at the position where the whole optional
group 2 can start: it participates exactly when an opening parenthesis
stands there and a nonempty run of non-closing-parenthesis characters is
closed by a closing parenthesis. -/
def chromeLoc (t2 : List Char) : Option (List Char) :=
  match t2 with
  | '(' :: r =>
    if r.takeWhile (fun c => c ≠ ')') ≠ [] ∧ r.dropWhile (fun c => c ≠ ')') ≠ [] then
      some (r.takeWhile (fun c => c ≠ ')'))
    else none
  | _ => none

/-- Groups 1 and 3 of chrome_regex read after the mandatory whitespace run:
group 1 greedily takes the run of characters that are neither whitespace
nor an opening parenthesis, participating only when nonempty; group 3 is
read after the following optional whitespace. -/
def chromeGroups (t1 : List Char) : Option (List Char) × Option (List Char) :=
  (if t1.takeWhile (fun c => !isWs c && c ≠ '(') = [] then none
   else some (t1.takeWhile (fun c => !isWs c && c ≠ '(')),
   chromeLoc ((t1.dropWhile (fun c => !isWs c && c ≠ '(')).dropWhile isWs))

/-- Captures of chrome_regex on one line: group 1 (the name, none when the
optional group does not participate) and group 3 (the parenthesized
location), read after the leftmost anchor found by chromeSearch and the
mandatory whitespace run. -/
def chromeCaptures (l : List Char) : Option (Option (List Char) × Option (List Char)) :=
  match chromeSearch l with
  | none => none
  | some s => some (chromeGroups (s.dropWhile isWs))

/-- One attempted group-2 length for firefox_regex at a fixed at-sign, on the
text t after that at-sign: the length-k prefix is group 2 (every character
any-but-newline), position k holds a colon, group 3 is the maximal nonempty
digit run after it, then a colon, then group 4 the maximal nonempty digit
run (greediness of the digit runs admits no shorter choice, since a shorter
run would put a digit where the pattern needs a colon). -/
def ffCondAt (t : List Char) (k : Nat) : Option (List Char × List Char × List Char) :=
  if 1 ≤ k ∧ (t.take k).all (fun c => c ≠ '\n') ∧ t.get? k = some ':' then
    if (t.drop (k + 1)).takeWhile isDigitC ≠ [] then
      match (t.drop (k + 1)).dropWhile isDigitC with
      | ':' :: r2 =>
        if r2.takeWhile isDigitC ≠ [] then
          some (t.take k, (t.drop (k + 1)).takeWhile isDigitC, r2.takeWhile isDigitC)
        else none
      | _ => none
    else none
  else none

/-- Greedy search over group-2 lengths, largest first, as the backtracking
semantics of the greedy any-but-newline plus quantifier demands. -/
def ffTry (t : List Char) : Nat → Option (List Char × List Char × List Char)
  | 0 => none
  | k + 1 =>
    match ffCondAt t (k + 1) with
    | some g => some g
    | none => ffTry t k

/-- Suffix match of firefox_regex after a fixed at-sign. -/
def ffSuffix (t : List Char) : Option (List Char × List Char × List Char) :=
  ffTry t t.length

/-- Suffix match of safari_regex after a fixed at-sign: group 2 is the run
of non-colon characters after the at-sign, which must be nonempty and
closed by a colon, then the two nonempty digit runs separated by a colon. -/
def safariSuffix (t : List Char) : Option (List Char × List Char × List Char) :=
  match t.dropWhile (fun c => c ≠ ':') with
  | ':' :: r1 =>
    if t.takeWhile (fun c => c ≠ ':') = [] then none
    else
      if r1.takeWhile isDigitC = [] then none
      else
        match r1.dropWhile isDigitC with
        | ':' :: r2 =>
          if r2.takeWhile isDigitC = [] then none
          else some (t.takeWhile (fun c => c ≠ ':'), r1.takeWhile isDigitC, r2.takeWhile isDigitC)
        | _ => none
  | _ => none

/-- Shared leftmost-first search of the two at-sign patterns.  Group 1 can
hold no at-sign, so a match starting at or before an at-sign places the
mandatory at-sign literal at the first at-sign at or after the start; the
overall match therefore anchors at the first at-sign whose suffix matches,
with group 1 the text since the previous at-sign (or the line start). -/
def atSearch (suffix : List Char → Option (List Char × List Char × List Char)) :
    List Char → List Char → Option (List Char × List Char × List Char × List Char)
  | _, [] => none
  | seg, c :: rest =>
    if c = '@' then
      match suffix rest with
      | some (g2, g3, g4) => some (seg, g2, g3, g4)
      | none => atSearch suffix [] rest
    else atSearch suffix (seg ++ [c]) rest

/-- Captures of firefox_regex on one line: groups 1 to 4. -/
def ffCaptures (l : List Char) : Option (List Char × List Char × List Char × List Char) :=
  atSearch ffSuffix [] l

/-- Captures of safari_regex on one line: groups 1 to 4. -/
def safariCaptures (l : List Char) : Option (List Char × List Char × List Char × List Char) :=
  atSearch safariSuffix [] l

example : chromeCaptures "    at f (/a/b.js:10:15)".data
    = some (some "f".data, some "/a/b.js:10:15".data) := by decide
example : chromeCaptures "Error: e".data = none := by decide
example : chromeCaptures "at  (x:1:2) rest".data
    = some (none, some "x:1:2".data) := by decide
example : chromeCaptures "that x at f (/a.js:1:2)".data
    = some (some "x".data, none) := by decide
example : ffCaptures "f@/a/b.js:20:5".data
    = some ("f".data, "/a/b.js".data, "20".data, "5".data) := by decide
example : ffCaptures "@/a/b.js:1:2".data
    = some ([], "/a/b.js".data, "1".data, "2".data) := by decide
example : ffCaptures "f@a:1:2xyz".data
    = some ("f".data, "a".data, "1".data, "2".data) := by decide
example : safariCaptures "f@a:1:2".data
    = some ("f".data, "a".data, "1".data, "2".data) := by decide
example : safariCaptures "f@/a/b.js:20:5".data
    = some ("f".data, "/a/b.js".data, "20".data, "5".data) := by decide
example : safariCaptures "f@http://x/a.js:1:2".data = none := by decide
example : ffCaptures "f@http://x/a.js:1:2".data
    = some ("f".data, "http://x/a.js".data, "1".data, "2".data) := by decide
example : ffCaptures "not a stack trace".data = none := by decide

/-- Frame built by the chrome branch (parser.rs lines 95-109 and, for
parse_simd, lines 154-169): split the location on colons; with at least
three pieces, the file is the colon-join of all but the last two pieces,
line and column are the u32 parses of the last two pieces with parse
failures degrading to 0, and an absent group 1 degrades to the anonymous
sentinel; with fewer than three pieces no frame is built. -/
def chromeFrame (name : Option (List Char)) (loc : List Char) : Option StackFrame :=
  if 3 ≤ (splitOnChar ':' loc).length then
    some
      { function_name := name.getD anonName
        file_name := joinSep ':' ((splitOnChar ':' loc).take ((splitOnChar ':' loc).length - 2))
        line_number := (parseU32 ((splitOnChar ':' loc).getD ((splitOnChar ':' loc).length - 2) [])).getD 0
        column_number := (parseU32 ((splitOnChar ':' loc).getD ((splitOnChar ':' loc).length - 1) [])).getD 0 }
  else none

/-- Frame built by the firefox and safari branches (parser.rs lines 114-124
and 128-138): group 1 is the name - the group always participates in a
match, possibly as the empty text, so the anonymous default of the source's
map_or is never taken on these branches - group 2 the file, groups 3 and 4
the line and column with parse failures degrading to 0. -/
def atFrame (g1 g2 g3 g4 : List Char) : StackFrame :=
  { function_name := g1
    file_name := g2
    line_number := (parseU32 g3).getD 0
    column_number := (parseU32 g4).getD 0 }

/-- Frames contributed by one line of ErrorParser.parse (parser.rs lines
92-139): the chrome pattern is tried first and, when it matches, the
branch ends the line (continue) whether or not a frame was built; otherwise
the firefox pattern, then the safari pattern; a line matching none of them
contributes nothing. -/
def parseLineFrames (l : List Char) : List StackFrame :=
  match chromeCaptures l with
  | some (g1, some loc) =>
    match chromeFrame g1 loc with
    | some f => [f]
    | none => []
  | some (_, none) => []
  | none =>
    match ffCaptures l with
    | some (g1, g2, g3, g4) => [atFrame g1 g2 g3 g4]
    | none =>
      match safariCaptures l with
      | some (g1, g2, g3, g4) => [atFrame g1 g2 g3 g4]
      | none => []

/-- utils.rs format_stack_frame: file, colon, line, colon, column, bar,
function name. -/
def formatStackFrame (f : StackFrame) : List Char :=
  f.file_name ++ ':' :: (Nat.repr f.line_number).data
    ++ ':' :: (Nat.repr f.column_number).data ++ '|' :: f.function_name

/-- Text pushed for one line by ErrorParser.parse: each frame of the line is
formatted and followed by a newline. -/
def lineOutput (l : List Char) : List Char :=
  (parseLineFrames l).flatMap fun f => formatStackFrame f ++ ['\n']

/-- ErrorParser (parser.rs lines 51-58): the compiled patterns are the fixed
ones of ErrorParser.new, embedded above as the capture functions; the
framework map is the one piece of per-instance data. -/
structure ErrorParser where
  framework_map : List (List Char × List Char)

/-- ErrorParser.new (parser.rs lines 63-81): the framework map holds the
three path-to-framework entries. -/
def ErrorParser.new : ErrorParser :=
  { framework_map :=
      [("node_modules/react".data, "React".data),
       ("node_modules/vue".data, "Vue".data),
       ("node_modules/angular".data, "Angular".data)] }

/-- The accumulating loop of ErrorParser.parse over the lines. -/
def parseAcc : List (List Char) → List Char → List Char
  | [], acc => acc
  | l :: ls, acc => parseAcc ls (acc ++ lineOutput l)

/-- ErrorParser.parse (parser.rs lines 84-142): empty input returns the
empty string at once; otherwise the input is split on newlines and each
line is processed in order, appending its formatted frames. -/
def ErrorParser.parse (_p : ErrorParser) (s : String) : List Char :=
  if s.data = [] then [] else parseAcc (splitOnChar '\n' s.data) []

/-- Frames contributed by one line of ErrorParser.parse_simd (parser.rs
lines 152-172): only the chrome pattern is tried. -/
def chromeLineFrames (l : List Char) : List StackFrame :=
  match chromeCaptures l with
  | some (g1, some loc) =>
    match chromeFrame g1 loc with
    | some f => [f]
    | none => []
  | some (_, none) => []
  | none => []

/-- The accumulating loop of ErrorParser.parse_simd over the lines. -/
def parseSimdAcc : List (List Char) → List StackFrame → List StackFrame
  | [], acc => acc
  | l :: ls, acc => parseSimdAcc ls (acc ++ chromeLineFrames l)

/-- ErrorParser.parse_simd (parser.rs lines 145-175). -/
def ErrorParser.parseSimd (_p : ErrorParser) (s : String) : List StackFrame :=
  if s.data = [] then [] else parseSimdAcc (splitOnChar '\n' s.data) []

/-- chromeFrame with the source's two panic-capable vector indexings made
explicit: parser.rs lines 101-102 index the pieces at len - 2 and len - 1,
and line 100 slices [0..len-2]; an out-of-range access is modelled as an
error value instead of a Rust panic. -/
def chromeFrameE (name : Option (List Char)) (loc : List Char) :
    Except (List Char) (Option StackFrame) :=
  if 3 ≤ (splitOnChar ':' loc).length then
    match (splitOnChar ':' loc).get? ((splitOnChar ':' loc).length - 2),
        (splitOnChar ':' loc).get? ((splitOnChar ':' loc).length - 1) with
    | some lp, some cp =>
      if (splitOnChar ':' loc).length - 2 ≤ (splitOnChar ':' loc).length then
        .ok (some
          { function_name := name.getD anonName
            file_name := joinSep ':' ((splitOnChar ':' loc).take ((splitOnChar ':' loc).length - 2))
            line_number := (parseU32 lp).getD 0
            column_number := (parseU32 cp).getD 0 })
      else .error "slice out of range".data
    | _, _ => .error "index out of bounds".data
  else .ok none

/-- parseLineFrames with the panic-capable accesses made explicit. -/
def lineFramesE (l : List Char) : Except (List Char) (List StackFrame) :=
  match chromeCaptures l with
  | some (g1, some loc) =>
    match chromeFrameE g1 loc with
    | .ok (some f) => .ok [f]
    | .ok none => .ok []
    | .error e => .error e
  | some (_, none) => .ok []
  | none =>
    match ffCaptures l with
    | some (g1, g2, g3, g4) => .ok [atFrame g1 g2 g3 g4]
    | none =>
      match safariCaptures l with
      | some (g1, g2, g3, g4) => .ok [atFrame g1 g2 g3 g4]
      | none => .ok []

/-- One line step of the frame-building pass with panics explicit: a panic
on any line aborts the whole parse with the error. -/
def stepE (acc : Except (List Char) (List StackFrame)) (l : List Char) :
    Except (List Char) (List StackFrame) :=
  match acc, lineFramesE l with
  | .ok a, .ok b => .ok (a ++ b)
  | .error e, _ => .error e
  | .ok _, .error e => .error e

def parseFramesE (s : String) : Except (List Char) (List StackFrame) :=
  if s.data = [] then .ok []
  else (splitOnChar '\n' s.data).foldl stepE (.ok [])

example : parseLineFrames "    at f (/a/b.js:10:15)".data
    = [⟨"f".data, "/a/b.js".data, 10, 15⟩] := by decide
example : parseLineFrames "f@/a/b.js:20:5".data
    = [⟨"f".data, "/a/b.js".data, 20, 5⟩] := by decide
example : parseLineFrames "@/a/b.js:1:2".data
    = [⟨[], "/a/b.js".data, 1, 2⟩] := by decide
example : parseLineFrames "not a stack trace".data = [] := by decide
example : parseLineFrames "at g (/x.js:99999999999999999999:7)".data
    = [⟨"g".data, "/x.js".data, 0, 7⟩] := by decide
example : parseLineFrames "at (/y.js:3:4)".data
    = [⟨anonName, "/y.js".data, 3, 4⟩] := by decide
example : ErrorParser.new.parse "@/a/b.js:1:2" = "/a/b.js:1:2|\n".data := by decide
example : ErrorParser.new.parseSimd "Error: e\n    at f (/a/b.js:10:15)"
    = [⟨"f".data, "/a/b.js".data, 10, 15⟩] := by decide
example : ErrorParser.new.parse "" = [] := by decide
example : ErrorParser.new.parse "not a stack trace" = [] := by decide

/-
  Spec-side comparison definitions.
-/

/-- A format rule in the sense of the spec: none when the line does not
match the rule's pattern, otherwise the frames its branch pushes (the
bracketed-call branch can match and still push nothing). -/
def ruleChrome (l : List Char) : Option (List StackFrame) :=
  (chromeCaptures l).map fun g =>
    match g with
    | (g1, some loc) =>
      match chromeFrame g1 loc with
      | some f => [f]
      | none => []
    | (_, none) => []

/-- The at-sign rule with full path (firefox_regex) as a rule. -/
def ruleFirefox (l : List Char) : Option (List StackFrame) :=
  (ffCaptures l).map fun g => [atFrame g.1 g.2.1 g.2.2.1 g.2.2.2]

/-- The at-sign rule with bare location (safari_regex) as a rule. -/
def ruleSafari (l : List Char) : Option (List StackFrame) :=
  (safariCaptures l).map fun g => [atFrame g.1 g.2.1 g.2.2.1 g.2.2.2]

/-- First-match-wins composition of a rule list: the first rule that
matches the line decides its frames; later rules are never consulted; a
line matching no rule contributes nothing. -/
def tryRules : List (List Char → Option (List StackFrame)) → List Char → List StackFrame
  | [], _ => []
  | r :: rs, l =>
    match r l with
    | some fs => fs
    | none => tryRules rs l

/-- parseLineFrames with the third (safari) rule removed: the comparison
point of claim C10. -/
def parseLineFramesNoThird (l : List Char) : List StackFrame :=
  match chromeCaptures l with
  | some (g1, some loc) =>
    match chromeFrame g1 loc with
    | some f => [f]
    | none => []
  | some (_, none) => []
  | none =>
    match ffCaptures l with
    | some (g1, g2, g3, g4) => [atFrame g1 g2 g3 g4]
    | none => []

/-- lineOutput with the third rule removed. -/
def lineOutputNoThird (l : List Char) : List Char :=
  (parseLineFramesNoThird l).flatMap fun f => formatStackFrame f ++ ['\n']

/-- The accumulating loop of parse with the third rule removed. -/
def parseAccNoThird : List (List Char) → List Char → List Char
  | [], acc => acc
  | l :: ls, acc => parseAccNoThird ls (acc ++ lineOutputNoThird l)

/-- ErrorParser.parse with the third rule removed. -/
def parseNoThird (s : String) : List Char :=
  if s.data = [] then [] else parseAccNoThird (splitOnChar '\n' s.data) []

/-
  Helper lemmas.
-/

theorem splitOnChar_ne_nil (sep : Char) (l : List Char) : splitOnChar sep l ≠ [] := by
  cases l with
  | nil => simp [splitOnChar]
  | cons c rest =>
    simp only [splitOnChar]
    split
    · simp
    · cases h : splitOnChar sep rest <;> simp

theorem splitOnChar_append (sep : Char) (xs ys : List Char) :
    splitOnChar sep (xs ++ sep :: ys) = splitOnChar sep xs ++ splitOnChar sep ys := by
  induction xs with
  | nil => simp [splitOnChar]
  | cons c xs ih =>
    by_cases hc : c = sep
    · subst hc
      simp [splitOnChar, ih]
    · simp only [List.cons_append, splitOnChar, if_neg hc, List.append_eq]
      rw [ih]
      cases h : splitOnChar sep xs with
      | nil => exact absurd h (splitOnChar_ne_nil sep xs)
      | cons p ps => simp

theorem splitOnChar_single (sep : Char) (l : List Char) (h : sep ∉ l) :
    splitOnChar sep l = [l] := by
  induction l with
  | nil => simp [splitOnChar]
  | cons c rest ih =>
    simp only [List.mem_cons, not_or] at h
    have hc : ¬ c = sep := fun hh => h.1 hh.symm
    simp [splitOnChar, hc, ih h.2]

theorem joinSep_splitOnChar (sep : Char) (l : List Char) :
    joinSep sep (splitOnChar sep l) = l := by
  induction l with
  | nil => simp [splitOnChar, joinSep]
  | cons c rest ih =>
    by_cases hc : c = sep
    · simp only [splitOnChar, if_pos hc]
      cases h : splitOnChar sep rest with
      | nil => exact absurd h (splitOnChar_ne_nil _ _)
      | cons p ps =>
        rw [h] at ih
        rw [hc]
        simp [joinSep, ih]
    · simp only [splitOnChar, if_neg hc]
      cases h : splitOnChar sep rest with
      | nil => exact absurd h (splitOnChar_ne_nil _ _)
      | cons p ps =>
        rw [h] at ih
        cases ps with
        | nil =>
          simp only [joinSep] at ih ⊢
          rw [ih]
        | cons q qs =>
          simp only [joinSep] at ih ⊢
          rw [List.cons_append, ih]

theorem not_mem_of_mem_splitOnChar (sep : Char) (s l : List Char)
    (h : l ∈ splitOnChar sep s) : sep ∉ l := by
  induction s generalizing l with
  | nil =>
    simp [splitOnChar] at h
    subst h
    simp
  | cons c rest ih =>
    simp only [splitOnChar] at h
    by_cases hc : c = sep
    · rw [if_pos hc] at h
      rcases List.mem_cons.mp h with h1 | h2
      · subst h1; simp
      · exact ih _ h2
    · rw [if_neg hc] at h
      cases hsplit : splitOnChar sep rest with
      | nil => exact absurd hsplit (splitOnChar_ne_nil _ _)
      | cons p ps =>
        rw [hsplit] at h
        rcases List.mem_cons.mp h with h1 | h2
        · subst h1
          intro hmem
          rcases List.mem_cons.mp hmem with h3 | h4
          · exact hc h3.symm
          · exact ih p (by rw [hsplit]; exact List.mem_cons_self _ _) h4
        · exact ih _ (by rw [hsplit]; exact List.mem_cons_of_mem _ h2)

theorem getD_append_left {α : Type} (xs ys : List α) (n : Nat) (d : α)
    (h : n < xs.length) : (xs ++ ys).getD n d = xs.getD n d := by
  induction xs generalizing n with
  | nil => simp at h
  | cons x xs ih =>
    cases n with
    | zero => simp
    | succ m =>
      simp only [List.cons_append, List.getD_cons_succ]
      exact ih m (by simpa using Nat.lt_of_succ_lt_succ h)

theorem getD_append_len {α : Type} (xs ys : List α) (n : Nat) (d : α) :
    (xs ++ ys).getD (xs.length + n) d = ys.getD n d := by
  induction xs with
  | nil => simp
  | cons x xs ih =>
    simp only [List.cons_append, List.length_cons]
    rw [Nat.succ_add, List.getD_cons_succ, ih]

theorem parseAcc_eq (ls : List (List Char)) (acc : List Char) :
    parseAcc ls acc = acc ++ ls.flatMap lineOutput := by
  induction ls generalizing acc with
  | nil => simp [parseAcc]
  | cons l ls ih => simp [parseAcc, ih, List.append_assoc]

theorem parseSimdAcc_eq (ls : List (List Char)) (acc : List StackFrame) :
    parseSimdAcc ls acc = acc ++ ls.flatMap chromeLineFrames := by
  induction ls generalizing acc with
  | nil => simp [parseSimdAcc]
  | cons l ls ih => simp [parseSimdAcc, ih, List.append_assoc]

theorem parseAccNoThird_eq (ls : List (List Char)) (acc : List Char) :
    parseAccNoThird ls acc = acc ++ ls.flatMap lineOutputNoThird := by
  induction ls generalizing acc with
  | nil => simp [parseAccNoThird]
  | cons l ls ih => simp [parseAccNoThird, ih, List.append_assoc]

theorem take_len_append {α : Type} (xs ys : List α) : (xs ++ ys).take xs.length = xs := by
  induction xs with
  | nil => simp
  | cons x xs ih => simp [ih]

theorem drop_len_append {α : Type} (xs ys : List α) (n : Nat) :
    (xs ++ ys).drop (xs.length + n) = ys.drop n := by
  induction xs with
  | nil => simp
  | cons x xs ih =>
    simp only [List.cons_append, List.length_cons, Nat.succ_add, List.drop_succ_cons]
    exact ih

theorem get?_len_append {α : Type} (xs ys : List α) (n : Nat) :
    (xs ++ ys).get? (xs.length + n) = ys.get? n := by
  induction xs with
  | nil => simp
  | cons x xs ih => simpa [Nat.succ_add] using ih

theorem ffTry_isSome_of (t : List Char) (n k : Nat) (hk : 1 ≤ k) (hkn : k ≤ n)
    (h : (ffCondAt t k).isSome) : (ffTry t n).isSome := by
  induction n with
  | zero => omega
  | succ m ih =>
    simp only [ffTry]
    cases hc : ffCondAt t (m + 1) with
    | some g => simp
    | none =>
      have hkm : k ≤ m := by
        rcases Nat.lt_or_ge k (m + 1) with hlt | hge
        · omega
        · exfalso
          have hkeq : k = m + 1 := by omega
          rw [hkeq, hc] at h
          simp at h
      exact ih hkm

theorem ffSuffix_isSome_of_shape (w r1 r2 : List Char)
    (hnl : ∀ c ∈ w ++ ':' :: r1, c ≠ '\n') (hnw : w ≠ [])
    (hd1 : r1.takeWhile isDigitC ≠ []) (hr2 : r1.dropWhile isDigitC = ':' :: r2)
    (hd2 : r2.takeWhile isDigitC ≠ []) : (ffSuffix (w ++ ':' :: r1)).isSome := by
  have hk1 : 1 ≤ w.length := by
    have := List.length_pos.mpr hnw
    omega
  have htake : (w ++ ':' :: r1).take w.length = w := take_len_append w (':' :: r1)
  have hget : (w ++ ':' :: r1).get? w.length = some ':' := by
    have := get?_len_append w (':' :: r1) 0
    simpa using this
  have hdrop : (w ++ ':' :: r1).drop (w.length + 1) = r1 := by
    have hd := drop_len_append w (':' :: r1) 1
    simp only [List.drop_succ_cons, List.drop_zero] at hd
    exact hd
  have hall : (((w ++ ':' :: r1).take w.length).all (fun c => c ≠ '\n')) = true := by
    rw [htake]
    simp only [List.all_eq_true, decide_eq_true_eq]
    intro a ha
    exact hnl a (List.mem_append_left _ ha)
  have hcond : (ffCondAt (w ++ ':' :: r1) w.length).isSome := by
    rw [ffCondAt, if_pos ⟨hk1, hall, hget⟩, hdrop, if_pos hd1, hr2]
    simp [hd2]
  have hkt : w.length ≤ (w ++ ':' :: r1).length := by
    simp only [List.length_append]
    omega
  exact ffTry_isSome_of _ _ _ hk1 hkt hcond

theorem ffSuffix_of_safariSuffix (t : List Char) (hnl : ∀ c ∈ t, c ≠ '\n')
    (g : List Char × List Char × List Char) (h : safariSuffix t = some g) :
    (ffSuffix t).isSome := by
  rw [safariSuffix] at h
  split at h
  case h_2 => exact absurd h (by simp)
  case h_1 r1 heq1 =>
    split at h
    case isTrue => exact absurd h (by simp)
    case isFalse hne1 =>
      split at h
      case isTrue => exact absurd h (by simp)
      case isFalse hne2 =>
        split at h
        case h_2 => exact absurd h (by simp)
        case h_1 r2 heq2 =>
          split at h
          case isTrue => exact absurd h (by simp)
          case isFalse hne3 =>
            have ht : t.takeWhile (fun c => c ≠ ':') ++ ':' :: r1 = t := by
              rw [← heq1]
              exact List.takeWhile_append_dropWhile (fun c => decide (c ≠ ':')) t
            have hmain := ffSuffix_isSome_of_shape (t.takeWhile (fun c => c ≠ ':'))
              r1 r2 (by rw [ht]; exact hnl) hne1 hne2 heq2 hne3
            rw [ht] at hmain
            exact hmain

theorem atSearch_ff_of_safari (l : List Char) (hnl : ∀ c ∈ l, c ≠ '\n') :
    ∀ seg1 seg2, (atSearch safariSuffix seg1 l).isSome →
      (atSearch ffSuffix seg2 l).isSome := by
  induction l with
  | nil =>
    intro _ _ h
    simp [atSearch] at h
  | cons c rest ih =>
    intro seg1 seg2 h
    have hnl2 : ∀ x ∈ rest, x ≠ '\n' := fun x hx => hnl x (List.mem_cons_of_mem _ hx)
    by_cases hc : c = '@'
    · rw [atSearch, if_pos hc] at h
      rw [atSearch, if_pos hc]
      cases hsaf : safariSuffix rest with
      | some g =>
        have hff := ffSuffix_of_safariSuffix rest hnl2 g hsaf
        cases hffv : ffSuffix rest with
        | some g2 =>
          obtain ⟨a, b, d⟩ := g2
          simp
        | none => rw [hffv] at hff; simp at hff
      | none =>
        rw [hsaf] at h
        cases hffv : ffSuffix rest with
        | some g2 =>
          obtain ⟨a, b, d⟩ := g2
          simp
        | none => exact ih hnl2 [] [] h
    · rw [atSearch, if_neg hc] at h
      rw [atSearch, if_neg hc]
      exact ih hnl2 _ _ h

theorem safariCaptures_none_of_ff_none (l : List Char) (hnl : ∀ c ∈ l, c ≠ '\n')
    (hff : ffCaptures l = none) : safariCaptures l = none := by
  cases hs : safariCaptures l with
  | none => rfl
  | some g =>
    exfalso
    have h1 : (safariCaptures l).isSome := by rw [hs]; rfl
    have h2 := atSearch_ff_of_safari l hnl [] [] h1
    rw [show atSearch ffSuffix [] l = ffCaptures l from rfl, hff] at h2
    simp at h2

theorem parseLineFrames_noThird (l : List Char) (hnl : ∀ c ∈ l, c ≠ '\n') :
    parseLineFrames l = parseLineFramesNoThird l := by
  rw [parseLineFrames, parseLineFramesNoThird]
  cases hc : chromeCaptures l with
  | some g =>
    obtain ⟨g1, g3⟩ := g
    cases g3 <;> rfl
  | none =>
    cases hff : ffCaptures l with
    | some g => rfl
    | none => rw [safariCaptures_none_of_ff_none l hnl hff]

example : simdExtractNumbers (strBytes "aaaaaaaaaaaaaa1234") = [1234, 34] := by decide
example : scalarExtractNumbers (strBytes "aaaaaaaaaaaaaa1234") = [1234] := by decide
example : simdExtractNumbers (strBytes "bbbbbbbbbbbbbb5678") = [5678, 78] := by decide
example : scalarExtractNumbers (strBytes "bbbbbbbbbbbbbb5678") = [5678] := by decide
example : simdExtractLineColumn (strBytes "x:10:20") = [10, 20] := by decide
example : simdExtractNumbers (strBytes "") = [] := by decide
example : simdExtractNumbers (strBytes "a1b22c") = [1, 22] := by decide
example : scalarExtractNumbers (strBytes "a1b22c") = [1, 22] := by decide

theorem chromeFrameE_ok (name : Option (List Char)) (loc : List Char) :
    chromeFrameE name loc = Except.ok (chromeFrame name loc) := by
  rw [chromeFrameE, chromeFrame]
  by_cases h3 : 3 ≤ (splitOnChar ':' loc).length
  · rw [if_pos h3, if_pos h3]
    cases hlp : (splitOnChar ':' loc).get? ((splitOnChar ':' loc).length - 2) with
    | none =>
      rw [List.get?_eq_none] at hlp
      omega
    | some lp =>
      cases hcp : (splitOnChar ':' loc).get? ((splitOnChar ':' loc).length - 1) with
      | none =>
        rw [List.get?_eq_none] at hcp
        omega
      | some cp =>
        have e2 : (splitOnChar ':' loc)[(splitOnChar ':' loc).length - 2]? = some lp := by
          rw [← List.get?_eq_getElem?]
          exact hlp
        have e1 : (splitOnChar ':' loc)[(splitOnChar ':' loc).length - 1]? = some cp := by
          rw [← List.get?_eq_getElem?]
          exact hcp
        simp [List.getD_eq_getElem?_getD, e2, e1, Nat.sub_le]
  · rw [if_neg h3, if_neg h3]

theorem lineFramesE_ok (l : List Char) :
    lineFramesE l = Except.ok (parseLineFrames l) := by
  rw [lineFramesE, parseLineFrames]
  cases hc : chromeCaptures l with
  | some g =>
    obtain ⟨g1, g3⟩ := g
    cases g3 with
    | some loc =>
      simp only [chromeFrameE_ok]
      cases chromeFrame g1 loc <;> rfl
    | none => rfl
  | none =>
    cases hff : ffCaptures l with
    | some g =>
      obtain ⟨a, b, c, d⟩ := g
      rfl
    | none =>
      cases hs : safariCaptures l with
      | some g =>
        obtain ⟨a, b, c, d⟩ := g
        rfl
      | none => rfl

theorem foldl_stepE (ls : List (List Char)) (acc : List StackFrame) :
    ls.foldl stepE (Except.ok acc) = Except.ok (acc ++ ls.flatMap parseLineFrames) := by
  induction ls generalizing acc with
  | nil => simp
  | cons l ls ih =>
    rw [List.foldl_cons]
    have hstep : stepE (Except.ok acc) l = Except.ok (acc ++ parseLineFrames l) := by
      simp [stepE, lineFramesE_ok l]
    rw [hstep, ih]
    simp [List.append_assoc]

theorem pairsFlat_length (f g : Nat → Nat) (n : Nat) :
    ((List.range n).flatMap fun i => [f i, g i]).length = 2 * n := by
  induction n with
  | zero => simp
  | succ m ih =>
    rw [List.range_succ, List.flatMap_append, List.length_append, ih]
    simp [Nat.mul_succ]

theorem pairsFlat_getD (f g : Nat → Nat) (n i : Nat) (h : i < n) :
    (((List.range n).flatMap fun j => [f j, g j]).getD (2 * i) 0 = f i)
    ∧ (((List.range n).flatMap fun j => [f j, g j]).getD (2 * i + 1) 0 = g i) := by
  induction n with
  | zero => omega
  | succ m ih =>
    rw [List.range_succ, List.flatMap_append]
    have hlen : ((List.range m).flatMap fun j => [f j, g j]).length = 2 * m :=
      pairsFlat_length f g m
    rcases Nat.lt_or_ge i m with him | him
    · constructor
      · rw [getD_append_left _ _ _ _ (by omega)]
        exact (ih him).1
      · rw [getD_append_left _ _ _ _ (by omega)]
        exact (ih him).2
    · have hieq : i = m := by omega
      subst hieq
      constructor
      · have h0 : 2 * i = ((List.range i).flatMap fun j => [f j, g j]).length + 0 := by omega
        rw [h0, getD_append_len]
        simp
      · have h1 : 2 * i + 1 = ((List.range i).flatMap fun j => [f j, g j]).length + 1 := by omega
        rw [h1, getD_append_len]
        simp

theorem flatMap_congr_mem {α β : Type} (ls : List α) (f g : α → List β)
    (h : ∀ l ∈ ls, f l = g l) : ls.flatMap f = ls.flatMap g := by
  induction ls with
  | nil => rfl
  | cons x xs ih =>
    rw [List.flatMap_cons, List.flatMap_cons, h x (List.mem_cons_self _ _),
      ih (fun l hl => h l (List.mem_cons_of_mem _ hl))]

/-
  The claim theorems.
-/

/-- Claim C1 (refuted; the code contradicts the boundary-run property the
spec states for it): the batch digit-scanning path does NOT treat a maximal
digit run straddling a 16-byte chunk boundary as one run.  On the 18-byte
buffer of fourteen letters followed by the digits 1234, the run occupies
offsets 14-17, straddling the boundary at offset 16: the chunk walk scans
the whole run and emits 1234, then the scalar tail pass re-scans from
offset 16 and emits the spurious suffix 34, so the single run yields two
numbers, while the pure scalar strategy yields the one number 1234. -/
theorem c1_chunk_boundary_split :
    simdExtractNumbers (strBytes "aaaaaaaaaaaaaa1234") = [1234, 34]
    ∧ scalarExtractNumbers (strBytes "aaaaaaaaaaaaaa1234") = [1234] :=
  ⟨by decide, by decide⟩

/-- Claim C2 (refuted; the code contradicts the equivalence the spec demands
of its two strategies): the batch strategy and the pure scalar strategy of
extract_numbers disagree on the 18-byte buffer of fourteen letters followed
by the digits 5678: the batch strategy returns the sequence 5678, 78 while
the scalar strategy returns the sequence 5678. -/
theorem c2_strategy_disagreement :
    simdExtractNumbers (strBytes "bbbbbbbbbbbbbb5678") = [5678, 78]
    ∧ scalarExtractNumbers (strBytes "bbbbbbbbbbbbbb5678") = [5678]
    ∧ simdExtractNumbers (strBytes "bbbbbbbbbbbbbb5678")
        ≠ scalarExtractNumbers (strBytes "bbbbbbbbbbbbbb5678") :=
  ⟨by decide, by decide, by decide⟩

/-- Claim C3: every line is matched against the three rules in the fixed
priority order bracketed-call (chrome), at-sign with full path (firefox),
at-sign bare (safari); the first rule that matches decides the line and no
later rule runs, and a line matching none of the three contributes no
frames and no error. -/
theorem c3_rule_priority : ∀ l : List Char,
    parseLineFrames l = tryRules [ruleChrome, ruleFirefox, ruleSafari] l
    ∧ (ruleChrome l = none → ruleFirefox l = none → ruleSafari l = none →
        parseLineFrames l = []) := by
  intro l
  constructor
  · rw [parseLineFrames]
    simp only [tryRules, ruleChrome, ruleFirefox, ruleSafari]
    cases hc : chromeCaptures l with
    | some g =>
      obtain ⟨g1, g3⟩ := g
      cases g3 with
      | some loc => simp
      | none => simp
    | none =>
      cases hff : ffCaptures l with
      | some g =>
        obtain ⟨a, b, c, d⟩ := g
        simp
      | none =>
        cases hs : safariCaptures l with
        | some g =>
          obtain ⟨a, b, c, d⟩ := g
          simp
        | none => simp
  · intro h1 h2 h3
    rw [ruleChrome, Option.map_eq_none'] at h1
    rw [ruleFirefox, Option.map_eq_none'] at h2
    rw [ruleSafari, Option.map_eq_none'] at h3
    rw [parseLineFrames, h1, h2, h3]

theorem c3_rule_priority_witness :
    parseLineFrames "not a stack trace".data = [] :=
  (c3_rule_priority "not a stack trace".data).2 (by decide) (by decide) (by decide)

/-- Claim C5: parse is total over arbitrary text.  The instrumented
semantics, in which every panic-capable operation of the source (the two
vector indexings and the slice of the chrome branch) is an explicit error
value, never produces an error: it always returns exactly the frame list of
the per-line pass, and in particular the empty input and garbage input
yield the empty result rather than a failure. -/
theorem c5_parse_total :
    (∀ l : List Char, lineFramesE l = Except.ok (parseLineFrames l))
    ∧ (∀ s : String, parseFramesE s
        = Except.ok ((splitOnChar '\n' s.data).flatMap parseLineFrames))
    ∧ parseFramesE "" = Except.ok []
    ∧ parseFramesE "not a stack trace" = Except.ok [] := by
  refine ⟨lineFramesE_ok, ?_, by rfl, by rfl⟩
  intro s
  rw [parseFramesE]
  by_cases h : s.data = []
  · rw [if_pos h, h]
    rfl
  · rw [if_neg h, foldl_stepE]
    simp

/-- Claim C6: parse and parse_simd process the input line by line in input
order: their output is the in-order concatenation of each line's
contribution, with no reordering and no deduplication. -/
theorem c6_order_preservation : ∀ (p : ErrorParser) (s : String),
    p.parse s = (splitOnChar '\n' s.data).flatMap lineOutput
    ∧ p.parseSimd s = (splitOnChar '\n' s.data).flatMap chromeLineFrames := by
  intro p s
  constructor
  · rw [ErrorParser.parse]
    by_cases h : s.data = []
    · rw [if_pos h, h]
      decide
    · rw [if_neg h, parseAcc_eq]
      simp
  · rw [ErrorParser.parseSimd]
    by_cases h : s.data = []
    · rw [if_pos h, h]
      decide
    · rw [if_neg h, parseSimdAcc_eq]
      simp

/-- Claim C8: extract_line_column_pairs emits exactly one candidate pair
for every adjacent pair of the numeric scanner's output, in scan order:
its length is twice the number of adjacent pairs, position 2i holds the
i-th number and position 2i+1 the (i+1)-th, and fewer than two numbers
yield the empty sequence rather than an error. -/
theorem c8_adjacent_pairs : ∀ bs : List Nat,
    (simdExtractLineColumn bs).length = 2 * ((simdExtractNumbers bs).length - 1)
    ∧ ((simdExtractNumbers bs).length < 2 → simdExtractLineColumn bs = [])
    ∧ ∀ i : Nat, i + 1 < (simdExtractNumbers bs).length →
        (simdExtractLineColumn bs).getD (2 * i) 0 = (simdExtractNumbers bs).getD i 0
        ∧ (simdExtractLineColumn bs).getD (2 * i + 1) 0
            = (simdExtractNumbers bs).getD (i + 1) 0 := by
  intro bs
  rw [simdExtractLineColumn]
  by_cases h2 : 2 ≤ (simdExtractNumbers bs).length
  · rw [if_pos h2]
    refine ⟨pairsFlat_length _ _ _, by omega, ?_⟩
    intro i hi
    exact pairsFlat_getD _ _ _ i (by omega)
  · rw [if_neg h2]
    refine ⟨?_, fun _ => rfl, ?_⟩
    · simp only [List.length_nil]
      omega
    · intro i hi
      omega

theorem c8_adjacent_pairs_witness :
    (simdExtractLineColumn (strBytes "x:10:20")).getD 0 0
        = (simdExtractNumbers (strBytes "x:10:20")).getD 0 0
    ∧ (simdExtractLineColumn (strBytes "x:10:20")).getD 1 0
        = (simdExtractNumbers (strBytes "x:10:20")).getD 1 0 := by
  have h := (c8_adjacent_pairs (strBytes "x:10:20")).2.2 0 (by decide)
  simpa using h

/-- Claim C9: the framework lookup table is dead data for parsing: two
parsers that differ only in the contents of the framework map produce
identical output from parse and from parse_simd on every input. -/
theorem c9_framework_map_independence :
    ∀ (m1 m2 : List (List Char × List Char)) (s : String),
      (ErrorParser.mk m1).parse s = (ErrorParser.mk m2).parse s
      ∧ (ErrorParser.mk m1).parseSimd s = (ErrorParser.mk m2).parseSimd s :=
  fun _ _ _ => ⟨rfl, rfl⟩

/-- Claim C7: on a line matched by the bracketed-call rule whose location
splits as a file part (which may itself contain colons), a colon, a
colon-free line segment, a colon and a colon-free column segment, the
emitted frame takes the file part as file_name and the last two segments as
line and column; in particular the two-line input of the spec yields
exactly the one frame with name f, file /a/b.js, line 10, column 15. -/
theorem c7_location_split :
    (∀ (l f ls cs : List Char) (g1 : Option (List Char)),
        chromeCaptures l = some (g1, some (f ++ (':' :: (ls ++ (':' :: cs))))) →
        (':' : Char) ∉ ls → (':' : Char) ∉ cs →
        parseLineFrames l
          = [{ function_name := g1.getD anonName, file_name := f,
               line_number := (parseU32 ls).getD 0,
               column_number := (parseU32 cs).getD 0 }])
    ∧ ErrorParser.new.parseSimd "Error: e\n    at f (/a/b.js:10:15)"
        = [{ function_name := "f".data, file_name := "/a/b.js".data,
             line_number := 10, column_number := 15 }] := by
  constructor
  · intro l f ls cs g1 hc hls hcs
    have hsplit : splitOnChar ':' (f ++ (':' :: (ls ++ (':' :: cs))))
        = splitOnChar ':' f ++ [ls, cs] := by
      rw [splitOnChar_append, splitOnChar_append, splitOnChar_single ':' ls hls,
        splitOnChar_single ':' cs hcs]
      rfl
    have hlen : (splitOnChar ':' f ++ [ls, cs]).length
        = (splitOnChar ':' f).length + 2 := by
      simp
    have hm : 1 ≤ (splitOnChar ':' f).length := by
      cases hsf : splitOnChar ':' f with
      | nil => exact absurd hsf (splitOnChar_ne_nil _ _)
      | cons a b => simp
    have hframe : chromeFrame g1 (f ++ (':' :: (ls ++ (':' :: cs))))
        = some { function_name := g1.getD anonName, file_name := f,
                 line_number := (parseU32 ls).getD 0,
                 column_number := (parseU32 cs).getD 0 } := by
      rw [chromeFrame, hsplit]
      rw [if_pos (by omega)]
      have hidx2 : (splitOnChar ':' f ++ [ls, cs]).length - 2
          = (splitOnChar ':' f).length := by
        rw [hlen]
        omega
      have hidx1 : (splitOnChar ':' f ++ [ls, cs]).length - 1
          = (splitOnChar ':' f).length + 1 := by
        rw [hlen]
        omega
      have htake : (splitOnChar ':' f ++ [ls, cs]).take ((splitOnChar ':' f).length)
          = splitOnChar ':' f := take_len_append _ _
      have hgl : (splitOnChar ':' f ++ [ls, cs]).getD ((splitOnChar ':' f).length) [] = ls := by
        have h0 := getD_append_len (splitOnChar ':' f) [ls, cs] 0 ([] : List Char)
        simpa using h0
      have hgc : (splitOnChar ':' f ++ [ls, cs]).getD ((splitOnChar ':' f).length + 1) [] = cs := by
        have h1 := getD_append_len (splitOnChar ':' f) [ls, cs] 1 ([] : List Char)
        simpa using h1
      rw [hidx2, hidx1, htake, hgl, hgc, joinSep_splitOnChar]
    simp only [parseLineFrames, hc, hframe]
  · decide

theorem c7_location_split_witness :
    parseLineFrames "    at f (/a/b.js:10:15)".data
      = [{ function_name := (some "f".data).getD anonName, file_name := "/a/b.js".data,
           line_number := (parseU32 "10".data).getD 0,
           column_number := (parseU32 "15".data).getD 0 }] :=
  c7_location_split.1 "    at f (/a/b.js:10:15)".data "/a/b.js".data "10".data "15".data
    (some "f".data) (by decide) (by decide) (by decide)

/-- Claim C4 as stated is false on the code: the at-sign rules' name group
always participates in a match, possibly as the empty text, so a line whose
source omits the function name - here an at-sign line beginning with the
at-sign - yields the empty name, not the anonymous sentinel.  The sentinel
is produced only by the bracketed-call rule, whose name group is optional. -/
theorem c4_counterexample :
    parseLineFrames "@/a/b.js:1:2".data
      = [{ function_name := [], file_name := "/a/b.js".data,
           line_number := 1, column_number := 2 }]
    ∧ ([] : List Char) ≠ anonName
    ∧ ErrorParser.new.parse "@/a/b.js:1:2" = "/a/b.js:1:2|\n".data :=
  ⟨by decide, by decide, by decide⟩

/-- Claim C4, amended: on every matched line the numeric captures that fail
to parse as a u32 degrade to 0 per field, the frame and the line are still
produced; a bracketed-call line whose optional name capture is absent takes
the anonymous sentinel; an at-sign line always takes its possibly empty
name capture as is. -/
theorem c4_amended :
    (∀ (l : List Char) (g1 : Option (List Char)) (loc : List Char),
        chromeCaptures l = some (g1, some loc) →
        3 ≤ (splitOnChar ':' loc).length →
        ∃ fr : StackFrame, parseLineFrames l = [fr]
          ∧ fr.function_name = g1.getD anonName
          ∧ fr.line_number = (parseU32 ((splitOnChar ':' loc).getD
              ((splitOnChar ':' loc).length - 2) [])).getD 0
          ∧ fr.column_number = (parseU32 ((splitOnChar ':' loc).getD
              ((splitOnChar ':' loc).length - 1) [])).getD 0)
    ∧ (∀ (l g1 g2 g3 g4 : List Char),
        chromeCaptures l = none →
        ffCaptures l = some (g1, g2, g3, g4) →
        ∃ fr : StackFrame, parseLineFrames l = [fr]
          ∧ fr.function_name = g1
          ∧ fr.line_number = (parseU32 g3).getD 0
          ∧ fr.column_number = (parseU32 g4).getD 0) := by
  constructor
  · intro l g1 loc hc h3
    refine ⟨{ function_name := g1.getD anonName,
              file_name := joinSep ':' ((splitOnChar ':' loc).take
                ((splitOnChar ':' loc).length - 2)),
              line_number := (parseU32 ((splitOnChar ':' loc).getD
                ((splitOnChar ':' loc).length - 2) [])).getD 0,
              column_number := (parseU32 ((splitOnChar ':' loc).getD
                ((splitOnChar ':' loc).length - 1) [])).getD 0 },
            ?_, rfl, rfl, rfl⟩
    simp only [parseLineFrames, hc, chromeFrame, if_pos h3]
  · intro l g1 g2 g3 g4 hc hff
    refine ⟨atFrame g1 g2 g3 g4, ?_, rfl, rfl, rfl⟩
    simp only [parseLineFrames, hc, hff]

theorem c4_amended_witness :
    ∃ fr : StackFrame,
      parseLineFrames "at g (/x.js:99999999999999999999:7)".data = [fr]
      ∧ fr.function_name = (some "g".data).getD anonName
      ∧ fr.line_number = (parseU32 ((splitOnChar ':' "/x.js:99999999999999999999:7".data).getD
          ((splitOnChar ':' "/x.js:99999999999999999999:7".data).length - 2) [])).getD 0
      ∧ fr.column_number = (parseU32 ((splitOnChar ':' "/x.js:99999999999999999999:7".data).getD
          ((splitOnChar ':' "/x.js:99999999999999999999:7".data).length - 1) [])).getD 0 :=
  c4_amended.1 "at g (/x.js:99999999999999999999:7)".data (some "g".data)
    "/x.js:99999999999999999999:7".data (by decide) (by decide)

/-- Claim C10: the bare at-sign rule is subsumed by the full-path at-sign
rule tried before it: on every newline-free line (and every line produced
by splitting is newline-free) a safari match implies a firefox match, so
the safari branch never runs on a line the firefox rule rejected, and
removing the third rule leaves the output of parse unchanged on every
input. -/
theorem c10_third_rule_subsumed :
    (∀ l : List Char, (∀ c ∈ l, c ≠ '\n') →
        (safariCaptures l).isSome → (ffCaptures l).isSome)
    ∧ ∀ (p : ErrorParser) (s : String), p.parse s = parseNoThird s := by
  constructor
  · intro l hnl h
    exact atSearch_ff_of_safari l hnl [] [] h
  · intro p s
    rw [ErrorParser.parse, parseNoThird]
    by_cases h : s.data = []
    · rw [if_pos h, if_pos h]
    · rw [if_neg h, if_neg h, parseAcc_eq, parseAccNoThird_eq]
      simp only [List.nil_append]
      apply flatMap_congr_mem
      intro l hl
      have hnl : ∀ c ∈ l, c ≠ '\n' := by
        intro c hcl heq
        subst heq
        exact not_mem_of_mem_splitOnChar '\n' s.data l hl hcl
      rw [lineOutput, lineOutputNoThird, parseLineFrames_noThird l hnl]

theorem c10_third_rule_subsumed_witness :
    (ffCaptures "f@a:1:2".data).isSome :=
  c10_third_rule_subsumed.1 "f@a:1:2".data (by decide) (by decide)
